import Mathlib

/-!
Formal model of the Battleship client game logic.

The definitions below are a shallow embedding of the client code:
`GameBoard.js` (cell-state projection and guarded click handling),
`ShipPlacement.js` (ship cell generation, placement validation and the
placement-session state machine) and the Game page, which wires the
enemy board with an empty ships list and a disabled flag derived from
turn ownership and game state.
-/

namespace Battleship

/-- Board side length (`GRID_SIZE = 5` in `ShipPlacement.js`,
`gridSize = 5` in `GameBoard.js`). -/
def gridSize : Int := 5

/-- A recorded move as the client receives it: the targeted cell and the
recorded result string (`hit`, `miss` or `sunk`). -/
structure Move where
  x : Int
  y : Int
  result : String
deriving Repr, DecidableEq

/-- A ship as the `GameBoard` component consumes it: its list of cells
(each a coordinate pair) and its sunk flag (`ship?.sunk || false` treats a
missing flag as `false`, so a `Bool` field models it). -/
structure BoardShip where
  cells : List (Int × Int)
  sunk : Bool
deriving Repr, DecidableEq

/-- The five visual cell states `getCellState` can return. -/
inductive CellState
  | empty
  | ship
  | hit
  | miss
  | sunk
deriving Repr, DecidableEq

/-- `GameBoard.getCellState`: projects the state of cell `(x, y)`.
On the player's own board it shows ships and incoming hits; on the
opponent's board it shows only the viewer's recorded move results. -/
def getCellState (ships : List BoardShip) (moves : List Move)
    (isPlayerBoard : Bool) (x y : Int) : CellState :=
  let move := moves.find? fun m => m.x == x && m.y == y
  if isPlayerBoard then
    let hasShip := ships.any fun s => s.cells.any fun cell => cell.1 == x && cell.2 == y
    match move with
    | some _ =>
      if hasShip then
        let hitShip := ships.find? fun s => s.cells.any fun c => c.1 == x && c.2 == y
        let isSunk := (hitShip.map BoardShip.sunk).getD false
        if isSunk then .sunk else .hit
      else .miss
    | none => if hasShip then .ship else .empty
  else
    match move with
    | some m =>
      if m.result == "miss" then .miss
      else if m.result == "sunk" then .sunk
      else .hit
    | none => .empty

/-- `GameBoard.handleCellClick`: returns the coordinates passed on to
`onCellClick`, or `none` when the click is swallowed (board disabled, no
callback, or the cell was already targeted). -/
def handleCellClick (disabled hasOnCellClick : Bool) (moves : List Move)
    (x y : Int) : Option (Int × Int) :=
  if disabled || !hasOnCellClick then none
  else if moves.any fun m => m.x == x && m.y == y then none
  else some (x, y)

/-- The 25 coordinate pairs the `GameBoard` grid renders: index `i` of
`Array.from(\x7blength: gridSize * gridSize\x7d)` maps to
`(Math.floor(i / gridSize), i % gridSize)`. -/
def gridCells : List (Int × Int) :=
  (List.range 25).map fun index => (Int.ofNat (index / 5), Int.ofNat (index % 5))

/-- The fields of the game object the enemy-board guard reads
(`game.current_turn`, `game.state`). -/
structure GameInfo where
  current_turn : String
  state : String
deriving Repr, DecidableEq

/-- `isMyTurn` in the Game page: `game.current_turn === user.id`. -/
def isMyTurn (g : GameInfo) (userId : String) : Bool :=
  g.current_turn == userId

/-- `isFinished` in the Game page: `game.state === 'finished'`. -/
def isFinished (g : GameInfo) : Bool :=
  g.state == "finished"

/-- The `disabled` prop the Game page passes to the enemy board:
`!isMyTurn || isFinished`. -/
def enemyBoardDisabled (g : GameInfo) (userId : String) : Bool :=
  !isMyTurn g userId || isFinished g

/-- One entry of the `SHIPS` constant in `ShipPlacement.js`
(the `color` field plays no role in the logic and is omitted). -/
structure ShipSpec where
  size : Nat
  name : String
deriving Repr, DecidableEq

/-- The fixed placement order: battleship (4), cruiser (3), destroyer (2). -/
def SHIPS : List ShipSpec :=
  [⟨4, "Battleship"⟩, ⟨3, "Cruiser"⟩, ⟨2, "Destroyer"⟩]

/-- The two orientations the component state can hold. -/
inductive Orientation
  | horizontal
  | vertical
deriving Repr, DecidableEq

/-- `ShipPlacement.getCellsForShip`: extends `size` cells from the start
cell along the orientation (`[startX, startY + i]` horizontally,
`[startX + i, startY]` vertically). -/
def getCellsForShip (startX startY : Int) (size : Nat)
    (orient : Orientation) : List (Int × Int) :=
  (List.range size).map fun (i : Nat) =>
    match orient with
    | .horizontal => (startX, startY + (i : Int))
    | .vertical => (startX + (i : Int), startY)

/-- A placed ship as stored in the `placedShips` state. -/
structure PlacedShip where
  size : Nat
  cells : List (Int × Int)
  name : String
deriving Repr, DecidableEq

/-- `ShipPlacement.isValidPlacement`: rejects when any cell is out of the
`[0,4]x[0,4]` board, or when any cell coincides with a cell of a
previously placed ship. -/
def isValidPlacement (placedShips : List PlacedShip)
    (cells : List (Int × Int)) : Bool :=
  if cells.any fun c =>
      decide (c.1 < 0) || decide (gridSize ≤ c.1) ||
      decide (c.2 < 0) || decide (gridSize ≤ c.2) then
    false
  else if placedShips.any fun s =>
      s.cells.any fun p => cells.any fun c => p.1 == c.1 && p.2 == c.2 then
    false
  else
    true

/-- The component state of `ShipPlacement` (the five `useState` hooks). -/
structure PlacementState where
  placedShips : List PlacedShip
  currentShipIndex : Nat
  orientation : Orientation
  hoveredCells : List (Int × Int)
  isValid : Bool
deriving Repr, DecidableEq

/-- What a placement click did: nothing (all ships already placed), a
rejection toast, or a successful placement. -/
inductive ClickOutcome
  | noop
  | rejected
  | placed
deriving Repr, DecidableEq

/-- `ShipPlacement.handleCellClick`: guarded by `currentShipIndex`,
generates the candidate cells, validates them, and on success appends the
new ship and advances the index. -/
def handlePlacementClick (s : PlacementState) (x y : Int) :
    PlacementState × ClickOutcome :=
  if h : s.currentShipIndex < SHIPS.length then
    let cur := SHIPS.get ⟨s.currentShipIndex, h⟩
    let cells := getCellsForShip x y cur.size s.orientation
    if isValidPlacement s.placedShips cells then
      ({ s with
          placedShips := s.placedShips ++ [⟨cur.size, cells, cur.name⟩],
          currentShipIndex := s.currentShipIndex + 1,
          hoveredCells := [] }, .placed)
    else
      (s, .rejected)
  else
    (s, .noop)

/-- `ShipPlacement.handleCellHover`: previews the candidate cells and
records their validity. -/
def handleCellHover (s : PlacementState) (x y : Int) : PlacementState :=
  if h : s.currentShipIndex < SHIPS.length then
    let cur := SHIPS.get ⟨s.currentShipIndex, h⟩
    let cells := getCellsForShip x y cur.size s.orientation
    { s with hoveredCells := cells,
             isValid := isValidPlacement s.placedShips cells }
  else
    s

/-- `ShipPlacement.handleReset`: clears placed ships, index and hover. -/
def handleReset (s : PlacementState) : PlacementState :=
  { s with placedShips := [], currentShipIndex := 0, hoveredCells := [] }

/-- The rotate button: flips the orientation. -/
def toggleOrientation (s : PlacementState) : PlacementState :=
  { s with orientation :=
      if s.orientation = .horizontal then .vertical else .horizontal }

/-- `onMouseLeave` on a grid cell: clears the hover preview. -/
def clearHover (s : PlacementState) : PlacementState :=
  { s with hoveredCells := [] }

/-- `ShipPlacement.handleComplete`: invokes `onComplete(placedShips)` only
when all ships are placed; `some fleet` models that invocation. -/
def handleComplete (s : PlacementState) : Option (List PlacedShip) :=
  if s.placedShips.length ≠ SHIPS.length then none
  else some s.placedShips

/-- The user events a placement session can receive. -/
inductive PlacementEvent
  | click (x y : Int)
  | hover (x y : Int)
  | leave
  | rotate
  | reset
deriving Repr, DecidableEq

/-- One step of the placement session. -/
def placementStep (s : PlacementState) (e : PlacementEvent) : PlacementState :=
  match e with
  | .click x y => (handlePlacementClick s x y).1
  | .hover x y => handleCellHover s x y
  | .leave => clearHover s
  | .rotate => toggleOrientation s
  | .reset => handleReset s

/-- The initial component state (`useState` initialisers). -/
def initPlacement : PlacementState :=
  { placedShips := [], currentShipIndex := 0, orientation := .horizontal,
    hoveredCells := [], isValid := true }

/-- Runs a placement session from the initial state. -/
def runPlacement (evs : List PlacementEvent) : PlacementState :=
  evs.foldl placementStep initPlacement

/-- A cell is inside the `[0,4]x[0,4]` board. -/
def inBoundsCell (c : Int × Int) : Prop :=
  0 ≤ c.1 ∧ c.1 ≤ 4 ∧ 0 ≤ c.2 ∧ c.2 ≤ 4

instance (c : Int × Int) : Decidable (inBoundsCell c) := by
  unfold inBoundsCell; infer_instance

/-- No two ships of the list share a cell. -/
def shipsDisjoint (l : List PlacedShip) : Prop :=
  l.Pairwise fun a b => ∀ c ∈ a.cells, c ∉ b.cells

/-- The placement-session invariant: the index counts the placed ships,
at most three ships are placed, the i-th ship has the i-th required size,
all placed cells are in bounds, and no two placed ships share a cell. -/
def PlacementInv (s : PlacementState) : Prop :=
  s.currentShipIndex = s.placedShips.length ∧
  s.placedShips.length ≤ SHIPS.length ∧
  s.placedShips.map PlacedShip.size =
    (SHIPS.map ShipSpec.size).take s.placedShips.length ∧
  (∀ ship ∈ s.placedShips, ∀ c ∈ ship.cells, inBoundsCell c) ∧
  shipsDisjoint s.placedShips

/-! ## Helper lemmas -/

/-- `find?` returns the unique element of a list satisfying the predicate. -/
theorem find?_eq_some_of_unique {α : Type} (p : α → Bool) (l : List α) (a : α)
    (ha : a ∈ l) (hpa : p a = true)
    (huniq : ∀ b ∈ l, p b = true → b = a) :
    l.find? p = some a := by
  induction l with
  | nil => cases ha
  | cons b t ih =>
    rcases List.mem_cons.mp ha with rfl | hat
    · rw [List.find?_cons_of_pos _ hpa]
    · by_cases hpb : p b = true
      · have hba : b = a := huniq b (List.mem_cons_self b t) hpb
        subst hba
        rw [List.find?_cons_of_pos _ hpb]
      · rw [List.find?_cons_of_neg _ (by simpa using hpb)]
        exact ih hat fun c hc hpc => huniq c (List.mem_cons_of_mem _ hc) hpc

/-- The bounds half of the validator, in Prop form. -/
theorem validPlacement_bounds_iff (cells : List (Int × Int)) :
    (cells.any fun c =>
      decide (c.1 < 0) || decide (gridSize ≤ c.1) ||
      decide (c.2 < 0) || decide (gridSize ≤ c.2)) = false ↔
      ∀ c ∈ cells, inBoundsCell c := by
  simp only [List.any_eq_false, Bool.or_eq_true, decide_eq_true_eq, not_or,
    not_lt, not_le, inBoundsCell, gridSize]
  constructor
  · intro h c hc
    have := h c hc
    omega
  · intro h c hc
    have := h c hc
    omega

/-- The overlap half of the validator, in Prop form. -/
theorem validPlacement_overlap_iff (ps : List PlacedShip)
    (cells : List (Int × Int)) :
    (ps.any fun s =>
      s.cells.any fun p => cells.any fun c => p.1 == c.1 && p.2 == c.2) = false ↔
      ∀ ship ∈ ps, ∀ c ∈ cells, c ∉ ship.cells := by
  rw [← Bool.not_eq_true, List.any_eq_true]
  simp only [List.any_eq_true, Bool.and_eq_true, beq_iff_eq]
  constructor
  · intro h s hs c hc hmem
    exact h ⟨s, hs, c, hmem, c, hc, rfl, rfl⟩
  · rintro h ⟨s, hs, p, hp, c, hc, h1, h2⟩
    obtain ⟨p1, p2⟩ := p
    obtain ⟨c1, c2⟩ := c
    dsimp only at h1 h2
    subst h1
    subst h2
    exact h s hs (p1, p2) hc hp

/-- `isValidPlacement` accepts exactly the in-bounds, non-overlapping cell
lists. -/
theorem isValidPlacement_eq_true_iff (ps : List PlacedShip)
    (cells : List (Int × Int)) :
    isValidPlacement ps cells = true ↔
      (∀ c ∈ cells, inBoundsCell c) ∧
      ∀ ship ∈ ps, ∀ c ∈ cells, c ∉ ship.cells := by
  unfold isValidPlacement
  split_ifs with h1 h2
  · constructor
    · intro h; cases h
    · intro h
      rw [(validPlacement_bounds_iff cells).mpr h.1] at h1
      cases h1
  · constructor
    · intro h; cases h
    · intro h
      rw [(validPlacement_overlap_iff ps cells).mpr h.2] at h2
      cases h2
  · simp only [true_iff]
    exact ⟨(validPlacement_bounds_iff cells).mp (by simpa using h1),
           (validPlacement_overlap_iff ps cells).mp (by simpa using h2)⟩

/-! ## Claim theorems -/

/-- C1: `isValidPlacement` returns `true` iff every candidate cell lies
inside the 5x5 board and no candidate cell coincides with a cell of any
previously placed ship; otherwise it returns `false`. -/
theorem placement_validation_accepts_iff (ps : List PlacedShip)
    (cells : List (Int × Int)) :
    isValidPlacement ps cells = true ↔
      (∀ c ∈ cells, inBoundsCell c) ∧
      ∀ ship ∈ ps, ∀ c ∈ cells, c ∉ ship.cells :=
  isValidPlacement_eq_true_iff ps cells

/-- Witness for C1 at a concrete input. -/
theorem placement_validation_accepts_iff_witness :
    isValidPlacement [] [((0 : Int), (0 : Int))] = true :=
  (placement_validation_accepts_iff [] [(0, 0)]).mpr
    ⟨by decide, by simp⟩

/-- C3: a cell that already appears in the move list is never submitted:
`handleCellClick` returns `none` (it never reaches `onCellClick`). -/
theorem no_duplicate_target (disabled hasCb : Bool) (moves : List Move)
    (x y : Int) (h : ∃ m ∈ moves, m.x = x ∧ m.y = y) :
    handleCellClick disabled hasCb moves x y = none := by
  unfold handleCellClick
  split_ifs with h1 h2
  · rfl
  · rfl
  · exfalso
    obtain ⟨m, hm, hx, hy⟩ := h
    exact h2 (List.any_eq_true.mpr ⟨m, hm, by simp [hx, hy]⟩)

/-- Witness for C3 at a concrete input. -/
theorem no_duplicate_target_witness :
    handleCellClick false true [⟨1, 2, "hit"⟩] 1 2 = none :=
  no_duplicate_target false true [⟨1, 2, "hit"⟩] 1 2
    ⟨⟨1, 2, "hit"⟩, by simp, rfl, rfl⟩

/-- C4: when it is not the viewer's turn or the game is finished, the
enemy board is disabled and a cell click never reaches `onCellClick`
(hence never triggers `handleMove`). -/
theorem no_move_out_of_turn_or_after_finish (g : GameInfo) (uid : String)
    (hasCb : Bool) (moves : List Move) (x y : Int)
    (h : g.current_turn ≠ uid ∨ g.state = "finished") :
    handleCellClick (enemyBoardDisabled g uid) hasCb moves x y = none := by
  have hd : enemyBoardDisabled g uid = true := by
    unfold enemyBoardDisabled isMyTurn isFinished
    rcases h with h | h
    · simp [h]
    · simp [h]
  unfold handleCellClick
  rw [hd]
  rfl

/-- Witness for C4 at a concrete input. -/
theorem no_move_out_of_turn_or_after_finish_witness :
    handleCellClick (enemyBoardDisabled ⟨"p2", "in_progress"⟩ "p1") true [] 0 0
      = none :=
  no_move_out_of_turn_or_after_finish ⟨"p2", "in_progress"⟩ "p1" true [] 0 0
    (Or.inl (by decide))

/-- C9: every coordinate pair the game grid renders (and hence every pair
it can pass to `handleCellClick`) lies inside the 5x5 board. -/
theorem grid_cells_in_bounds (c : Int × Int) (h : c ∈ gridCells) :
    inBoundsCell c := by
  have hall : gridCells.all (fun c => decide (inBoundsCell c)) = true := by decide
  simpa using List.all_eq_true.mp hall c h

/-- Witness for C9 at a concrete input. -/
theorem grid_cells_in_bounds_witness : inBoundsCell ((4 : Int), (3 : Int)) :=
  grid_cells_in_bounds (4, 3) (by decide)

/-- C5: `getCellsForShip` produces exactly `size` pairwise-distinct cells,
beginning at the start cell and extending one cell at a time along the
chosen orientation with no gaps. -/
theorem ship_cells_contiguous (x y : Int) (s : Nat) (o : Orientation)
    (hs : 1 ≤ s) :
    (getCellsForShip x y s o).length = s ∧
    (getCellsForShip x y s o).Nodup ∧
    (getCellsForShip x y s o)[0]? = some (x, y) ∧
    ∀ i, i < s →
      (getCellsForShip x y s o)[i]? =
        some (match o with
              | .horizontal => (x, y + (i : Int))
              | .vertical => (x + (i : Int), y)) := by
  have hidx : ∀ i, i < s →
      (getCellsForShip x y s o)[i]? =
        some (match o with
              | .horizontal => (x, y + (i : Int))
              | .vertical => (x + (i : Int), y)) := by
    intro i hi
    cases o
    · show ((List.range s).map fun (j : Nat) => ((x : Int), y + (j : Int)))[i]? =
        some (x, y + (i : Int))
      rw [List.getElem?_map, List.getElem?_range hi]
      rfl
    · show ((List.range s).map fun (j : Nat) => (x + (j : Int), (y : Int)))[i]? =
        some (x + (i : Int), y)
      rw [List.getElem?_map, List.getElem?_range hi]
      rfl
  have hlen : (getCellsForShip x y s o).length = s := by
    cases o <;>
      simp only [getCellsForShip, List.length_map, List.length_range]
  refine ⟨hlen, ?_, ?_, hidx⟩
  · cases o <;>
    · refine List.Nodup.map ?_ (List.nodup_range s)
      intro a b hab
      simp only [Prod.mk.injEq] at hab
      omega
  · have h0 := hidx 0 hs
    cases o <;> simpa using h0

/-- Witness for C5 at a concrete input. -/
theorem ship_cells_contiguous_witness :
    (getCellsForShip 2 1 3 .horizontal).length = 3 ∧
    (getCellsForShip 2 1 3 .horizontal).Nodup ∧
    (getCellsForShip 2 1 3 .horizontal)[0]? = some (2, 1) ∧
    ∀ i : Nat, i < 3 →
      (getCellsForShip 2 1 3 .horizontal)[i]? =
        some (match Orientation.horizontal with
              | .horizontal => (2, 1 + (i : Int))
              | .vertical => (2 + (i : Int), 1)) :=
  ship_cells_contiguous 2 1 3 .horizontal (by decide)

/-- Unfolding of the enemy-board branch of `getCellState`. -/
theorem getCellState_enemy_eq (ships : List BoardShip) (moves : List Move)
    (x y : Int) :
    getCellState ships moves false x y =
      (match moves.find? fun m => m.x == x && m.y == y with
       | some m =>
         if m.result == "miss" then CellState.miss
         else if m.result == "sunk" then CellState.sunk
         else CellState.hit
       | none => CellState.empty) := rfl

/-- Unfolding of the own-board branch of `getCellState`. -/
theorem getCellState_own_eq (ships : List BoardShip) (moves : List Move)
    (x y : Int) :
    getCellState ships moves true x y =
      (match moves.find? fun m => m.x == x && m.y == y with
       | some _ =>
         if ships.any fun s => s.cells.any fun cell => cell.1 == x && cell.2 == y then
           if ((ships.find? fun s => s.cells.any fun c => c.1 == x && c.2 == y).map
                BoardShip.sunk).getD false
           then CellState.sunk else CellState.hit
         else CellState.miss
       | none =>
         if ships.any fun s => s.cells.any fun cell => cell.1 == x && cell.2 == y then
           CellState.ship
         else CellState.empty) := rfl

/-- A single ship covers the cell, in Prop form. -/
theorem coverPred_iff (b : BoardShip) (x y : Int) :
    (b.cells.any fun c => c.1 == x && c.2 == y) = true ↔ (x, y) ∈ b.cells := by
  simp only [List.any_eq_true, Bool.and_eq_true, beq_iff_eq]
  constructor
  · rintro ⟨c, hc, h1, h2⟩
    obtain ⟨c1, c2⟩ := c
    dsimp only at h1 h2
    subst h1
    subst h2
    exact hc
  · intro h
    exact ⟨(x, y), h, rfl, rfl⟩

/-- Some ship of the list covers the cell, in Prop form. -/
theorem shipAny_iff (ships : List BoardShip) (x y : Int) :
    (ships.any fun s => s.cells.any fun cell => cell.1 == x && cell.2 == y) = true ↔
      ∃ s ∈ ships, (x, y) ∈ s.cells := by
  simp only [List.any_eq_true, Bool.and_eq_true, beq_iff_eq]
  constructor
  · rintro ⟨s, hs, c, hc, h1, h2⟩
    obtain ⟨c1, c2⟩ := c
    dsimp only at h1 h2
    subst h1
    subst h2
    exact ⟨s, hs, hc⟩
  · rintro ⟨s, hs, h⟩
    exact ⟨s, hs, (x, y), h, rfl, rfl⟩

/-- Cell-disjointness of ships is a symmetric relation. -/
theorem boardShip_disjoint_symm :
    Symmetric fun a b : BoardShip => ∀ c ∈ a.cells, c ∉ b.cells := by
  intro a b h c hcb hca
  exact h c hca hcb

/-- When no move targets the cell, the move lookup is empty. -/
theorem moveFind_none (moves : List Move) (x y : Int)
    (h : ∀ m ∈ moves, ¬(m.x = x ∧ m.y = y)) :
    (moves.find? fun m => m.x == x && m.y == y) = none := by
  rw [List.find?_eq_none]
  intro m hm
  have := h m hm
  simp only [Bool.and_eq_true, beq_iff_eq, not_and] at this ⊢
  exact this

/-- When some move targets the cell, the move lookup succeeds. -/
theorem moveFind_some (moves : List Move) (x y : Int)
    (h : ∃ m ∈ moves, m.x = x ∧ m.y = y) :
    ∃ m2, (moves.find? fun m => m.x == x && m.y == y) = some m2 := by
  obtain ⟨m, hm, hx, hy⟩ := h
  rcases hfind : moves.find? fun mm => mm.x == x && mm.y == y with _ | m2
  · rw [List.find?_eq_none] at hfind
    exact absurd (by simp [hx, hy] : (m.x == x && m.y == y) = true) (hfind m hm)
  · exact ⟨m2, hfind⟩

/-- C2: the enemy-board projection reveals nothing about unshot enemy
cells: it is independent of the enemy fleet, shows `empty` where the
viewer has no move, and at a moved cell shows exactly the recorded result
of that move. -/
theorem enemy_projection_private (ships1 ships2 : List BoardShip)
    (moves : List Move) (x y : Int) :
    getCellState ships1 moves false x y = getCellState ships2 moves false x y ∧
    ((∀ m ∈ moves, ¬(m.x = x ∧ m.y = y)) →
      getCellState ships1 moves false x y = .empty) ∧
    ∀ m ∈ moves, m.x = x → m.y = y →
      (∀ m2 ∈ moves, m2.x = x → m2.y = y → m2 = m) →
      (m.result = "miss" → getCellState ships1 moves false x y = .miss) ∧
      (m.result = "sunk" → getCellState ships1 moves false x y = .sunk) ∧
      (m.result ≠ "miss" → m.result ≠ "sunk" →
        getCellState ships1 moves false x y = .hit) := by
  refine ⟨rfl, ?_, ?_⟩
  · intro h
    rw [getCellState_enemy_eq, moveFind_none moves x y h]
  · intro m hm hx hy huniq
    have hfind : (moves.find? fun mm => mm.x == x && mm.y == y) = some m := by
      apply find?_eq_some_of_unique _ _ _ hm (by simp [hx, hy])
      intro b hb hpb
      simp only [Bool.and_eq_true, beq_iff_eq] at hpb
      exact huniq b hb hpb.1 hpb.2
    refine ⟨?_, ?_, ?_⟩
    · intro hres
      rw [getCellState_enemy_eq, hfind]
      show (if m.result == "miss" then CellState.miss
            else if m.result == "sunk" then CellState.sunk
            else CellState.hit) = CellState.miss
      rw [hres]
      rfl
    · intro hres
      rw [getCellState_enemy_eq, hfind]
      show (if m.result == "miss" then CellState.miss
            else if m.result == "sunk" then CellState.sunk
            else CellState.hit) = CellState.sunk
      rw [hres]
      rfl
    · intro h1 h2
      rw [getCellState_enemy_eq, hfind]
      show (if m.result == "miss" then CellState.miss
            else if m.result == "sunk" then CellState.sunk
            else CellState.hit) = CellState.hit
      simp [h1, h2]

/-- Witness for C2 at a concrete input. -/
theorem enemy_projection_private_witness :
    getCellState [] [⟨0, 1, "sunk"⟩] false 0 1 = .sunk :=
  ((enemy_projection_private [] [] [⟨0, 1, "sunk"⟩] 0 1).2.2
    ⟨0, 1, "sunk"⟩ (by simp) rfl rfl
    (fun m2 hm2 _ _ => by simpa using hm2)).2.1 rfl

/-- C6: the own-board projection always shows the viewer's ship cells and
overlays incoming moves: `miss` at a moved non-ship cell, `hit`/`sunk` at
a moved ship cell (`sunk` exactly when the struck ship's flag is set),
`ship` at an un-moved ship cell and `empty` otherwise. -/
theorem own_projection_spec (ships : List BoardShip) (moves : List Move)
    (x y : Int)
    (hdisj : ships.Pairwise fun a b => ∀ c ∈ a.cells, c ∉ b.cells) :
    ((∃ m ∈ moves, m.x = x ∧ m.y = y) → (∀ s ∈ ships, (x, y) ∉ s.cells) →
      getCellState ships moves true x y = .miss) ∧
    ((∀ m ∈ moves, ¬(m.x = x ∧ m.y = y)) → (∃ s ∈ ships, (x, y) ∈ s.cells) →
      getCellState ships moves true x y = .ship) ∧
    ((∀ m ∈ moves, ¬(m.x = x ∧ m.y = y)) → (∀ s ∈ ships, (x, y) ∉ s.cells) →
      getCellState ships moves true x y = .empty) ∧
    ∀ s ∈ ships, (x, y) ∈ s.cells → (∃ m ∈ moves, m.x = x ∧ m.y = y) →
      getCellState ships moves true x y = (if s.sunk then .sunk else .hit) := by
  refine ⟨?_, ?_, ?_, ?_⟩
  · intro hmv hns
    obtain ⟨m2, hfind⟩ := moveFind_some moves x y hmv
    have hany : (ships.any fun s =>
        s.cells.any fun cell => cell.1 == x && cell.2 == y) = false := by
      rw [Bool.eq_false_iff]
      intro hA
      obtain ⟨s, hs, hmem⟩ := (shipAny_iff ships x y).mp hA
      exact hns s hs hmem
    rw [getCellState_own_eq, hfind, hany]
    rfl
  · intro hnm hex
    have hany := (shipAny_iff ships x y).mpr hex
    rw [getCellState_own_eq, moveFind_none moves x y hnm, hany]
    rfl
  · intro hnm hns
    have hany : (ships.any fun s =>
        s.cells.any fun cell => cell.1 == x && cell.2 == y) = false := by
      rw [Bool.eq_false_iff]
      intro hA
      obtain ⟨s, hs, hmem⟩ := (shipAny_iff ships x y).mp hA
      exact hns s hs hmem
    rw [getCellState_own_eq, moveFind_none moves x y hnm, hany]
    rfl
  · intro s hs hmem hmv
    obtain ⟨m2, hfind⟩ := moveFind_some moves x y hmv
    have hany := (shipAny_iff ships x y).mpr ⟨s, hs, hmem⟩
    have hfind2 : (ships.find? fun b => b.cells.any fun c => c.1 == x && c.2 == y)
        = some s := by
      apply find?_eq_some_of_unique _ _ _ hs ((coverPred_iff s x y).mpr hmem)
      intro b hb hpb
      have hbmem := (coverPred_iff b x y).mp hpb
      by_contra hne
      have hr := List.Pairwise.forall boardShip_disjoint_symm hdisj hb hs hne
      exact hr (x, y) hbmem hmem
    rw [getCellState_own_eq, hfind, hany, hfind2]
    cases hsunk : s.sunk <;> simp [hsunk]

/-- Witness for C6 at a concrete input. -/
theorem own_projection_spec_witness :
    getCellState [⟨[(0, 0), (0, 1)], false⟩] [⟨0, 0, "hit"⟩] true 0 0 = .hit := by
  have h := own_projection_spec [⟨[(0, 0), (0, 1)], false⟩] [⟨0, 0, "hit"⟩] 0 0
    (by simp)
  have h4 := h.2.2.2 ⟨[(0, 0), (0, 1)], false⟩ (by simp) (by simp)
    ⟨⟨0, 0, "hit"⟩, by simp, rfl, rfl⟩
  simpa using h4

/-- The initial placement state satisfies the invariant. -/
theorem placementInv_init : PlacementInv initPlacement := by
  refine ⟨rfl, by simp [initPlacement, SHIPS], rfl, ?_, ?_⟩
  · intro ship h
    simp [initPlacement] at h
  · simp [shipsDisjoint, initPlacement]

/-- A placement click preserves the invariant. -/
theorem placementInv_click (s : PlacementState) (x y : Int)
    (h : PlacementInv s) : PlacementInv (handlePlacementClick s x y).1 := by
  obtain ⟨hidx, hlen, hsizes, hbounds, hdisj⟩ := h
  unfold handlePlacementClick
  split
  case isFalse => exact ⟨hidx, hlen, hsizes, hbounds, hdisj⟩
  case isTrue hlt =>
    dsimp only
    split
    case isFalse => exact ⟨hidx, hlen, hsizes, hbounds, hdisj⟩
    case isTrue hvalid =>
      obtain ⟨hvb, hvo⟩ := (isValidPlacement_eq_true_iff _ _).mp hvalid
      refine ⟨?_, ?_, ?_, ?_, ?_⟩
      · simp only [List.length_append, List.length_cons, List.length_nil]
        omega
      · simp only [List.length_append, List.length_cons, List.length_nil]
        omega
      · simp only [List.map_append, List.map_cons, List.map_nil,
          List.length_append, List.length_cons, List.length_nil]
        rw [hsizes, ← hidx, List.take_succ]
        congr 1
        rw [List.getElem?_map, List.getElem?_eq_getElem hlt]
        rfl
      · intro ship hship
        rcases List.mem_append.mp hship with hin | hnew
        · exact hbounds ship hin
        · rcases List.mem_singleton.mp hnew with rfl
          exact hvb
      · rw [shipsDisjoint, List.pairwise_append]
        refine ⟨hdisj, List.pairwise_singleton _ _, ?_⟩
        intro a ha b hb
        rcases List.mem_singleton.mp hb with rfl
        intro c hca hcb
        exact hvo a ha c hcb hca

/-- Every placement-session event preserves the invariant. -/
theorem placementInv_step (s : PlacementState) (e : PlacementEvent)
    (h : PlacementInv s) : PlacementInv (placementStep s e) := by
  cases e with
  | click x y => exact placementInv_click s x y h
  | hover x y =>
    obtain ⟨hidx, hlen, hsizes, hbounds, hdisj⟩ := h
    show PlacementInv (handleCellHover s x y)
    unfold handleCellHover
    split
    · exact ⟨hidx, hlen, hsizes, hbounds, hdisj⟩
    · exact ⟨hidx, hlen, hsizes, hbounds, hdisj⟩
  | leave =>
    obtain ⟨hidx, hlen, hsizes, hbounds, hdisj⟩ := h
    exact ⟨hidx, hlen, hsizes, hbounds, hdisj⟩
  | rotate =>
    obtain ⟨hidx, hlen, hsizes, hbounds, hdisj⟩ := h
    exact ⟨hidx, hlen, hsizes, hbounds, hdisj⟩
  | reset =>
    refine ⟨rfl, ?_, rfl, ?_, ?_⟩
    · show ([] : List PlacedShip).length ≤ SHIPS.length
      simp
    · intro ship hmem
      simp [placementStep, handleReset] at hmem
    · simp [placementStep, handleReset, shipsDisjoint]

/-- The invariant holds in every reachable placement state. -/
theorem placementInv_runPlacement (evs : List PlacementEvent) :
    PlacementInv (runPlacement evs) := by
  suffices h : ∀ (l : List PlacementEvent) (s : PlacementState),
      PlacementInv s → PlacementInv (l.foldl placementStep s) by
    exact h evs initPlacement placementInv_init
  intro l
  induction l with
  | nil => intro s hs; exact hs
  | cons e t ih =>
    intro s hs
    exact ih (placementStep s e) (placementInv_step s e hs)

/-- C10: after any sequence of placement-session events, the placed-ships
list holds at most three ships, the i-th placed ship has the i-th
required size (the sizes list is a prefix of `[4, 3, 2]`), every placed
cell is in bounds, no two placed ships share a cell, and
`currentShipIndex` equals the number of placed ships. -/
theorem placement_session_invariant (evs : List PlacementEvent) :
    PlacementInv (runPlacement evs) :=
  placementInv_runPlacement evs

/-- C7: a click whose generated cells fail validation is rejected without
any state change, and submitting the same invalid placement again from
the resulting state yields the same rejection. -/
theorem invalid_placement_rejection (s : PlacementState) (x y : Int)
    (hlt : s.currentShipIndex < SHIPS.length)
    (hinvalid : isValidPlacement s.placedShips
      (getCellsForShip x y (SHIPS.get ⟨s.currentShipIndex, hlt⟩).size
        s.orientation) = false) :
    handlePlacementClick s x y = (s, .rejected) ∧
    handlePlacementClick (handlePlacementClick s x y).1 x y = (s, .rejected) := by
  have h1 : handlePlacementClick s x y = (s, .rejected) := by
    unfold handlePlacementClick
    rw [dif_pos hlt]
    dsimp only
    rw [if_neg]
    rw [hinvalid]
    simp
  refine ⟨h1, ?_⟩
  rw [h1]
  exact h1

/-- Witness for C7 at a concrete input: with the battleship already on
row 0, clicking (0,0) would overlap it, and the click is rejected twice
without state change. -/
theorem invalid_placement_rejection_witness :
    handlePlacementClick
      ⟨[⟨4, [(0, 0), (0, 1), (0, 2), (0, 3)], "Battleship"⟩], 1,
        .horizontal, [], true⟩ 0 0 =
      (⟨[⟨4, [(0, 0), (0, 1), (0, 2), (0, 3)], "Battleship"⟩], 1,
        .horizontal, [], true⟩, .rejected) :=
  (invalid_placement_rejection
    ⟨[⟨4, [(0, 0), (0, 1), (0, 2), (0, 3)], "Battleship"⟩], 1,
      .horizontal, [], true⟩ 0 0 (by decide) (by decide)).1

/-- C8: in any reachable placement state, `handleComplete` submits the
fleet exactly when three ships are placed, and every submitted fleet
consists of exactly three ships of sizes 4, 3, 2 in that order. -/
theorem fleet_submission_spec (evs : List PlacementEvent) :
    ((handleComplete (runPlacement evs)).isSome = true ↔
      (runPlacement evs).placedShips.length = 3) ∧
    ∀ fleet, handleComplete (runPlacement evs) = some fleet →
      fleet.map PlacedShip.size = [4, 3, 2] ∧ fleet.length = 3 := by
  obtain ⟨hidx, hlen, hsizes, hbounds, hdisj⟩ := placementInv_runPlacement evs
  constructor
  · unfold handleComplete
    split
    case isTrue hne =>
      simp only [Option.isSome_none, Bool.false_eq_true, false_iff]
      intro h3
      exact hne (by simpa [SHIPS] using h3)
    case isFalse hne =>
      simp only [Option.isSome_some, true_iff]
      have := not_ne_iff.mp hne
      simpa [SHIPS] using this
  · intro fleet hf
    unfold handleComplete at hf
    split at hf
    · cases hf
    case isFalse hne =>
      have hlen3 : (runPlacement evs).placedShips.length = 3 := by
        simpa [SHIPS] using not_ne_iff.mp hne
      injection hf with hf2
      subst hf2
      rw [hsizes, hlen3]
      exact ⟨rfl, rfl⟩

/-- Witness for C8: a session placing the three ships on rows 0, 1, 2
submits a fleet with sizes 4, 3, 2. -/
theorem fleet_submission_spec_witness :
    ([⟨4, [(0, 0), (0, 1), (0, 2), (0, 3)], "Battleship"⟩,
      ⟨3, [(1, 0), (1, 1), (1, 2)], "Cruiser"⟩,
      ⟨2, [(2, 0), (2, 1)], "Destroyer"⟩] : List PlacedShip).map
        PlacedShip.size = [4, 3, 2] ∧
    ([⟨4, [(0, 0), (0, 1), (0, 2), (0, 3)], "Battleship"⟩,
      ⟨3, [(1, 0), (1, 1), (1, 2)], "Cruiser"⟩,
      ⟨2, [(2, 0), (2, 1)], "Destroyer"⟩] : List PlacedShip).length = 3 :=
  (fleet_submission_spec [.click 0 0, .click 1 0, .click 2 0]).2
    [⟨4, [(0, 0), (0, 1), (0, 2), (0, 3)], "Battleship"⟩,
     ⟨3, [(1, 0), (1, 1), (1, 2)], "Cruiser"⟩,
     ⟨2, [(2, 0), (2, 1)], "Destroyer"⟩] (by decide)

end Battleship
